import Mathlib

/-!
# Resume analyzer: embedding, cosine scoring, ranking and the resume store

A shallow embedding of `embed.js` (`mockEmbedding`, `getEmbedding`, `cosine`),
`db.js` (`readDb`, `writeDb`, `insertResume`, `getAllResumes`) and the two
handlers of `server.js` (`/api/upload`, `/api/search`).

Numbers are modelled over an arbitrary linearly ordered field `α` with the
square root passed in as a function, so that every definition is executable
(for instance over `ℚ`); the theorems instantiate `α` with `ℝ` and the square
root with `Real.sqrt`.  `NaN` is kept as a separate value because the loop of
`cosine` reads `b[i]` past the end of `b` when `a` is the longer array.
The model has no infinities and no rounding.
-/

namespace ResumeAnalyzer

/-! ## JavaScript numbers -/

/-- A JavaScript number: a number of the field, or `NaN`. -/
inductive JsNum (α : Type) where
  | num (x : α)
  | nan
  deriving DecidableEq, Repr

namespace JsNum

variable {α : Type} [LinearOrderedField α]

/-- The operator `x + y`. -/
def add : JsNum α → JsNum α → JsNum α
  | num x, num y => num (x + y)
  | _, _ => nan

/-- The operator `x - y`. -/
def sub : JsNum α → JsNum α → JsNum α
  | num x, num y => num (x - y)
  | _, _ => nan

/-- The operator `x * y`. -/
def mul : JsNum α → JsNum α → JsNum α
  | num x, num y => num (x * y)
  | _, _ => nan

/-- The operator `x / y`.  A zero divisor (which JavaScript answers with an
infinity or `NaN`) is answered with `NaN`, the model having no infinities. -/
def div : JsNum α → JsNum α → JsNum α
  | num x, num y => if y = 0 then nan else num (x / y)
  | _, _ => nan

/-- The function `Math.sqrt`, over the given square root of the field. -/
def sqrt (sqrtFn : α → α) : JsNum α → JsNum α
  | num x => if x < 0 then nan else num (sqrtFn x)
  | nan => nan

/-- The test `x === 0`. -/
def isZero : JsNum α → Bool
  | num x => decide (x = 0)
  | nan => false

/-- The comparison `x >= y`; it is false as soon as one side is `NaN`. -/
def ge : JsNum α → JsNum α → Prop
  | num x, num y => y ≤ x
  | _, _ => False

instance decidableGe (x y : JsNum α) : Decidable (ge x y) := by
  cases x <;> cases y <;> unfold ge <;> infer_instance

/-- The predicate that a value is a number, not `NaN`. -/
def isNum : JsNum α → Bool
  | num _ => true
  | nan => false

end JsNum

open JsNum

/-! ## embed.js -/

/-- A value handed to `cosine`: an array of numbers, or anything that is not
an array (`Array.isArray` is false on it).  Arrays with entries that are not
finite numbers (strings, `null`, nested values, infinities) are outside the
model. -/
inductive JsValue (α : Type) where
  | array (xs : List α)
  | notArray
  deriving DecidableEq, Repr

/-- The operator `s || dflt` on a string that may be `undefined`. -/
def orElse (s : Option String) (dflt : String) : String :=
  match s with
  | some t => if t = "" then dflt else t
  | none => dflt

/-- A SHA-256 digest: 32 bytes. -/
abbrev Digest := Fin 32 → Fin 256

section Embed

variable {α : Type} [LinearOrderedField α]

/-- The reduction `vec.reduce((s, v) => s + v * v, 0)`. -/
def sumSquares (vec : List α) : α :=
  vec.foldl (fun s v => s + v * v) 0

/-- The first loop of `mockEmbedding`: component `i` is the byte
`hash[i % hash.length]` carried from `0 .. 255` to `-1 .. 1`. -/
def rawVector (hash : Digest) (dim : Nat) : List α :=
  (List.range dim).map fun i =>
    let byte : Nat := (hash ⟨i % 32, Nat.mod_lt i (by decide)⟩).val
    ((byte : α) / 255) * 2 - 1

/-- The function `mockEmbedding(text, dim)`; `sha256` is the digest function of
the `crypto` module and `sqrtFn` is `Math.sqrt`. -/
def mockEmbedding (sqrtFn : α → α) (sha256 : String → Digest)
    (text : Option String) (dim : Nat) : List α :=
  let safeText : String := orElse text ""
  let hash := sha256 safeText
  let vec : List α := rawVector hash dim
  let root := sqrtFn (sumSquares vec)
  let norm : α := if root = 0 then 1 else root
  vec.map fun v => v / norm

/-- The function `getEmbedding(text)`. -/
def getEmbedding (sqrtFn : α → α) (sha256 : String → Digest) (text : String) : List α :=
  mockEmbedding sqrtFn sha256 (some text) 128

/-- The read `xs[i]` used as an operand of `*`: a number inside the array,
`undefined` (hence `NaN`) past its end. -/
def index {α : Type} (xs : List α) (i : Nat) : JsNum α :=
  match xs[i]? with
  | some x => num x
  | none => nan

/-- One turn of the loop of `cosine` on the accumulators `(dot, na, nb)`. -/
def cosineStep (a b : List α) (acc : JsNum α × JsNum α × JsNum α) (i : Nat) :
    JsNum α × JsNum α × JsNum α :=
  (acc.1.add ((index a i).mul (index b i)),
   acc.2.1.add ((index a i).mul (index a i)),
   acc.2.2.add ((index b i).mul (index b i)))

/-- The loop `for (let i = 0; i < a.length; i++)` of `cosine`. -/
def cosineLoop (a b : List α) : JsNum α × JsNum α × JsNum α :=
  (List.range a.length).foldl (cosineStep a b) (num 0, num 0, num 0)

/-- The function `cosine(a, b)`. -/
def cosine (sqrtFn : α → α) : JsValue α → JsValue α → JsNum α
  | .array a, .array b =>
    if a.length = 0 ∨ b.length = 0 then num 0
    else
      let acc := cosineLoop a b
      let dot := acc.1
      let na := acc.2.1
      let nb := acc.2.2
      if na.isZero || nb.isZero then num 0
      else dot.div ((na.sqrt sqrtFn).mul (nb.sqrt sqrtFn))
  | _, _ => num 0

end Embed

/-! ## db.js -/

/-- A JavaScript object whose properties hold strings, in property order. -/
abbrev JsObject := List (String × String)

/-- The property read `o.key`; `none` is `undefined`. -/
def JsObject.get (o : JsObject) (key : String) : Option String :=
  match o with
  | [] => none
  | (k, v) :: rest => if k = key then some v else JsObject.get rest key

/-- The property write `o.key = v` as an object literal performs it: an
existing property keeps its place and takes the new value, a new property goes
last. -/
def JsObject.set (o : JsObject) (key v : String) : JsObject :=
  match o with
  | [] => [(key, v)]
  | (k, w) :: rest => if k = key then (k, v) :: rest else (k, w) :: JsObject.set rest key v

/-- The spread `...src` inside an object literal whose earlier properties are `o`. -/
def JsObject.spread (o src : JsObject) : JsObject :=
  src.foldl (fun acc p => JsObject.set acc p.1 p.2) o

/-- The content of `data/resumes.json`. -/
structure Db where
  resumes : List JsObject
  lastId : Nat
  deriving DecidableEq, Repr

/-- The file `data/resumes.json`: `none` when it cannot be read or parsed. -/
abbrev DbFile := Option Db

/-- The function `readDb()`. -/
def readDb (file : DbFile) : Db :=
  match file with
  | some db => db
  | none => { resumes := [], lastId := 0 }

/-- The function `writeDb(data)`. -/
def writeDb (data : Db) : DbFile := some data

/-- The function `init()`: the file is created empty when it does not exist. -/
def init (file : DbFile) : DbFile :=
  match file with
  | some db => some db
  | none => writeDb { resumes := [], lastId := 0 }

/-- The object literal `newResume` of `insertResume`: the property `id`, the
properties of `resumeObj` spread over it, then `created_at`. -/
def newResume (id : String) (resumeObj : JsObject) (now : String) : JsObject :=
  JsObject.set (JsObject.spread [("id", id)] resumeObj) "created_at" now

/-- The function `insertResume(resumeObj)`; `now` is `new Date().toISOString()`.
The result is the file after the write and the `insertId` of the answer.  The
counter is a natural number: a double holds every integer up to `2 ^ 53`
exactly. -/
def insertResume (file : DbFile) (resumeObj : JsObject) (now : String) :
    DbFile × Option String :=
  let db := readDb file
  let lastId := db.lastId + 1
  let resume := newResume (toString lastId) resumeObj now
  let db : Db := { resumes := db.resumes ++ [resume], lastId := lastId }
  (writeDb db, resume.get "id")

/-- The function `getAllResumes()`. -/
def getAllResumes (file : DbFile) : List JsObject :=
  (readDb file).resumes

/-! ## server.js -/

/-- The object `resumeData` of the `/api/upload` handler; `name` and `email`
are `req.body.name` and `req.body.email`, `embedding` is the text
`JSON.stringify(embedding)`, `originalname` is `req.file.originalname`. -/
def resumeData (name email : Option String) (text embedding originalname : String) : JsObject :=
  [("name", orElse name "Unknown Candidate"),
   ("email", orElse email "No Email"),
   ("text", text),
   ("embedding", embedding),
   ("fileName", originalname)]

/-- The code points `String.prototype.trim` removes: the white space and the
line terminators of the language. -/
def isJsWhiteSpace (c : Char) : Bool :=
  let n := c.toNat
  n = 0x09 || n = 0x0A || n = 0x0B || n = 0x0C || n = 0x0D || n = 0x20 || n = 0xA0
    || n = 0x1680 || (0x2000 ≤ n && n ≤ 0x200A) || n = 0x2028 || n = 0x2029 || n = 0x202F
    || n = 0x205F || n = 0x3000 || n = 0xFEFF

/-- The test `!text || text.trim().length === 0` of the upload handler. -/
def isBlank (text : String) : Bool :=
  text.data.all isJsWhiteSpace

/-- The answer of `/api/upload` from the extracted text on: status 400 with an
error text, or the `id` of the stored record. -/
inductive UploadResponse where
  | badRequest (error : String)
  | ok (id : Option String)
  deriving DecidableEq, Repr

/-- The `/api/upload` handler from the extracted text on: a blank text is
rejected; otherwise the embedding is computed, serialised with `stringify`
(that is `JSON.stringify`) and the record is inserted.  The result is the file
after the request and the answer. -/
def uploadSave {α : Type} [LinearOrderedField α] (sqrtFn : α → α) (sha256 : String → Digest)
    (stringify : List α → String) (file : DbFile) (name email : Option String)
    (text originalname now : String) : DbFile × UploadResponse :=
  if isBlank text then (file, .badRequest "Could not extract text from file.")
  else
    let embedding := getEmbedding sqrtFn sha256 text
    let saved := insertResume file (resumeData name email text (stringify embedding) originalname) now
    (saved.1, .ok saved.2)

/-- What one `/api/upload` request contributes to the stored record. -/
structure Upload where
  name : Option String
  email : Option String
  text : String
  embedding : String
  originalname : String
  now : String

/-- A sequence of `insertResume` calls on the records the upload handler
builds, with the `insertId` of every call. -/
def insertUploads (file : DbFile) : List Upload → DbFile × List (Option String)
  | [] => (file, [])
  | u :: us =>
    let step := insertResume file (resumeData u.name u.email u.text u.embedding u.originalname) u.now
    let rest := insertUploads step.1 us
    (rest.1, step.2 :: rest.2)

/-- One element of the answer of `/api/search`. -/
structure ScoredResult (α : Type) where
  id : Option String
  name : Option String
  email : Option String
  fileName : Option String
  score : JsNum α
  snippet : String

/-- The body of a `/api/search` request. -/
structure SearchBody where
  query : Option String
  top_k : Option Int

/-- The answer of `/api/search`: status 400 with an error text, or the list. -/
inductive SearchResponse (α : Type) where
  | badRequest (error : String)
  | ok (results : List (ScoredResult α))

section Search

variable {α : Type} [LinearOrderedField α]

/-- The callback of `allResumes.map` in `/api/search`; `parse` is `JSON.parse`,
which throws (`Except.error`) on text that is not JSON.  The snippet takes the
first 300 characters of the text. -/
def scoreResume (sqrtFn : α → α) (parse : String → Except String (JsValue α))
    (queryVector : List α) (resume : JsObject) : ScoredResult α :=
  let vec : JsValue α :=
    match parse (orElse (resume.get "embedding") "[]") with
    | .ok v => v
    | .error _ => .array []
  let score := cosine sqrtFn (.array queryVector) vec
  { id := resume.get "id"
    name := resume.get "name"
    email := resume.get "email"
    fileName := resume.get "file_name"
    score := score
    snippet := (orElse (resume.get "text") "").take 300 ++ "..." }

/-- The array `scoredResumes` of `/api/search`, before it is sorted. -/
def scoredResumes (sqrtFn : α → α) (parse : String → Except String (JsValue α))
    (queryVector : List α) (allResumes : List JsObject) : List (ScoredResult α) :=
  allResumes.map (scoreResume sqrtFn parse queryVector)

/-- The comparator `(a, b) => b.score - a.score`. -/
def compareScore (a b : ScoredResult α) : JsNum α :=
  b.score.sub a.score

/-- The test `v > 0` on the value of a comparator, `NaN` counting as `+0`. -/
def isPositive : JsNum α → Bool
  | num x => decide (0 < x)
  | nan => false

/-- Insertion of `x` in front of the first element it does not have to follow. -/
def sortInsert {β : Type} (cmp : β → β → JsNum α) (x : β) : List β → List β
  | [] => [x]
  | y :: ys => if isPositive (cmp x y) then y :: sortInsert cmp x ys else x :: y :: ys

/-- The method `Array.prototype.sort(cmp)`, as a stable insertion sort: on a
consistent comparator every stable sort gives this result.  A comparator value
`NaN` is taken as `+0`, as the language prescribes. -/
def jsSort {β : Type} (cmp : β → β → JsNum α) : List β → List β
  | [] => []
  | x :: xs => sortInsert cmp x (jsSort cmp xs)

/-- The relative index of `Array.prototype.slice`: a negative bound counts from
the end, and the result is clamped to `0 .. len`. -/
def relativeIndex (len : Nat) (i : Int) : Nat :=
  if i < 0 then (Int.toNat ((len : Int) + i)) else min (Int.toNat i) len

/-- The method `Array.prototype.slice(start, stop)`. -/
def slice {β : Type} (xs : List β) (start stop : Int) : List β :=
  let k := relativeIndex xs.length start
  let final := relativeIndex xs.length stop
  (xs.drop k).take (final - k)

/-- The lines of `/api/search` from the scoring to the answer: score every
record, sort, slice. -/
def rank (sqrtFn : α → α) (parse : String → Except String (JsValue α))
    (queryVector : List α) (allResumes : List JsObject) (k : Int) : List (ScoredResult α) :=
  slice (jsSort compareScore (scoredResumes sqrtFn parse queryVector allResumes)) 0 k

/-- The expression `top_k || 5`: an absent `top_k` and the falsy `0` give 5. -/
def resultCount (top_k : Option Int) : Int :=
  match top_k with
  | some n => if n = 0 then 5 else n
  | none => 5

/-- The `/api/search` handler. -/
def search (sqrtFn : α → α) (sha256 : String → Digest)
    (parse : String → Except String (JsValue α)) (file : DbFile) (body : SearchBody) :
    SearchResponse α :=
  match body.query with
  | none => .badRequest "Query is required"
  | some query =>
    if query = "" then .badRequest "Query is required"
    else
      let k : Int := resultCount body.top_k
      let queryVector := getEmbedding sqrtFn sha256 query
      let allResumes := getAllResumes file
      .ok (rank sqrtFn parse queryVector allResumes k)

end Search

/-! ## Notions used to state the properties -/

section Notions

variable {α : Type} [LinearOrderedField α]

/-- The dot product of two lists, over their common length. -/
def dotProduct (a b : List α) : α :=
  (List.zipWith (fun x y => x * y) a b).sum

/-- The Euclidean norm of a vector. -/
def euclideanNorm (sqrtFn : α → α) (vec : List α) : α :=
  sqrtFn (sumSquares vec)

/-- Every score is `>=` every score after it. -/
def Descending (l : List (ScoredResult α)) : Prop :=
  l.Pairwise fun x y => JsNum.ge x.score y.score

/-- The answer is sorted non-increasing by score: the score of each result is
`>=` the score of the result after it. -/
def NonIncreasing : List (ScoredResult α) → Prop
  | x :: y :: rest => JsNum.ge x.score y.score ∧ NonIncreasing (y :: rest)
  | _ => True

/-- A `JSON.parse` for examples: it reads the texts `[1]` and `[]`, reads
`engineerText` as the embedding of the text `engineer` under the digest
`digest`, and throws on every other text. -/
def parseStored (sqrtFn : α → α) (digest : String → Digest) :
    String → Except String (JsValue α) := fun s =>
  if s = "[1]" then .ok (.array [1])
  else if s = "[]" then .ok (.array [])
  else if s = "JSON.stringify(embedding of engineer)" then
    .ok (.array (getEmbedding sqrtFn digest "engineer"))
  else .error "Unexpected token"

/-- A `JSON.parse` for examples: it reads the texts `[1]` and `[]` and throws
on every other text. -/
def parseOne : String → Except String (JsValue α) := fun s =>
  if s = "[1]" then .ok (.array [1])
  else if s = "[]" then .ok (.array [])
  else .error "Unexpected token"

/-- The results of an answer; a rejected request has none. -/
def SearchResponse.results : SearchResponse α → List (ScoredResult α)
  | .badRequest _ => []
  | .ok results => results

/-- The test that a request was answered with a list. -/
def SearchResponse.isOk : SearchResponse α → Bool
  | .badRequest _ => false
  | .ok _ => true

end Notions

/-- A digest function for examples: every byte is `0`. -/
def zeroDigest : String → Digest := fun _ _ => 0

/-- A stored record whose embedding text is `emb`. -/
def exampleRecord (id name emb : String) : JsObject :=
  [("id", id), ("name", name), ("email", "hr@example.org"), ("text", "Software Engineer"),
   ("embedding", emb), ("fileName", "cv.pdf"), ("created_at", "2024-01-01T00:00:00.000Z")]

/-- The text that stands for what `JSON.stringify` writes for the embedding of
the text `engineer`. -/
def engineerText : String := "JSON.stringify(embedding of engineer)"

/-- A store of three records: one with the empty array as embedding, one with
a one-component embedding, one with the embedding of the text `engineer`. -/
def mixedStore : DbFile :=
  some { resumes := [exampleRecord "1" "Ann" "[]", exampleRecord "2" "Bob" "[1]",
                     exampleRecord "3" "Cid" engineerText], lastId := 3 }

/-- A store of three records whose embedding is the empty array. -/
def threeStore : DbFile :=
  some { resumes := [exampleRecord "1" "Ann" "[]", exampleRecord "2" "Bob" "[]",
                     exampleRecord "3" "Cid" "[]"], lastId := 3 }

/-- One more decimal digit read into the value read so far. -/
def digitValue (acc : Nat) (c : Char) : Nat :=
  10 * acc + (c.toNat - 48)

/-- The number a decimal string denotes. -/
def decimalValue (s : String) : Nat :=
  s.data.foldl digitValue 0

/-- The record `insertResume` stores for an upload when the counter reaches `id`. -/
def storedRecord (id : Nat) (u : Upload) : JsObject :=
  newResume (toString id) (resumeData u.name u.email u.text u.embedding u.originalname) u.now

/-! ## Lemmas on the loop of `cosine` -/

theorem index_lt {α : Type} (xs : List α) (i : Nat) (h : i < xs.length) :
    index xs i = num (xs.get ⟨i, h⟩) := by
  simp [index, List.getElem?_eq_getElem h]

theorem index_ge {α : Type} (xs : List α) (i : Nat) (h : xs.length ≤ i) : index xs i = nan := by
  simp [index, List.getElem?_eq_none h]

theorem take_succ_get {α : Type} (xs : List α) (n : Nat) (h : n < xs.length) :
    xs.take (n + 1) = xs.take n ++ [xs.get ⟨n, h⟩] := by
  rw [List.take_succ, List.getElem?_eq_getElem h]
  rfl

section LoopLemmas

variable {α : Type} [LinearOrderedField α]

theorem foldl_sq_eq (vec : List α) (s : α) :
    vec.foldl (fun s v => s + v * v) s = s + (vec.map fun v => v * v).sum := by
  induction vec generalizing s with
  | nil => simp
  | cons x xs ih => simp [ih, add_assoc]

theorem sumSquares_eq (vec : List α) : sumSquares vec = (vec.map fun v => v * v).sum := by
  simp [sumSquares, foldl_sq_eq]

theorem sumSquares_nonneg (vec : List α) : 0 ≤ sumSquares vec := by
  rw [sumSquares_eq]
  apply List.sum_nonneg
  intro x hx
  obtain ⟨v, -, rfl⟩ := List.mem_map.1 hx
  exact mul_self_nonneg v

theorem sumSquares_append_one (vec : List α) (x : α) :
    sumSquares (vec ++ [x]) = sumSquares vec + x * x := by
  simp [sumSquares_eq]

theorem dotProduct_append_one (a b : List α) (x y : α) (h : a.length = b.length) :
    dotProduct (a ++ [x]) (b ++ [y]) = dotProduct a b + x * y := by
  simp [dotProduct, List.zipWith_append _ _ _ _ _ h]

/-- As long as the index stays inside both arrays the accumulators hold the
dot product and the two sums of squares of the prefixes read so far. -/
theorem loop_inside (a b : List α) (n : Nat) (ha : n ≤ a.length) (hb : n ≤ b.length) :
    (List.range n).foldl (cosineStep a b) (num 0, num 0, num 0)
      = (num (dotProduct (a.take n) (b.take n)), num (sumSquares (a.take n)),
         num (sumSquares (b.take n))) := by
  induction n with
  | zero => simp [dotProduct, sumSquares]
  | succ n ih =>
    have ha' : n < a.length := ha
    have hb' : n < b.length := hb
    rw [List.range_succ, List.foldl_append, ih (Nat.le_of_lt ha') (Nat.le_of_lt hb')]
    simp only [List.foldl_cons, List.foldl_nil, cosineStep, index_lt a n ha', index_lt b n hb',
      JsNum.add, JsNum.mul, take_succ_get a n ha', take_succ_get b n hb',
      sumSquares_append_one]
    rw [dotProduct_append_one]
    simp [List.length_take, Nat.min_eq_left (Nat.le_of_lt ha'), Nat.min_eq_left (Nat.le_of_lt hb')]

/-- Once the index has passed the end of `b` the accumulators `dot` and `nb`
are `NaN`, while `na` still holds the sum of squares of the prefix of `a`. -/
theorem loop_outside (a b : List α) (n : Nat) (ha : n ≤ a.length) (hb : b.length < n) :
    (List.range n).foldl (cosineStep a b) (num 0, num 0, num 0)
      = (nan, num (sumSquares (a.take n)), nan) := by
  induction n with
  | zero => exact absurd hb (Nat.not_lt_zero _)
  | succ n ih =>
    have ha' : n < a.length := ha
    have hbn : b.length ≤ n := Nat.lt_succ_iff.1 hb
    rw [List.range_succ, List.foldl_append]
    rcases Nat.lt_or_ge b.length n with h | h
    · rw [ih (Nat.le_of_lt ha') h]
      simp only [List.foldl_cons, List.foldl_nil, cosineStep, index_lt a n ha', index_ge b n hbn,
        JsNum.add, JsNum.mul, take_succ_get a n ha', sumSquares_append_one]
    · have hn : n = b.length := Nat.le_antisymm h hbn
      rw [loop_inside a b n (Nat.le_of_lt ha') h]
      simp only [List.foldl_cons, List.foldl_nil, cosineStep, index_lt a n ha', index_ge b n hbn,
        JsNum.add, JsNum.mul, take_succ_get a n ha', sumSquares_append_one]

theorem cosineLoop_le (a b : List α) (h : a.length ≤ b.length) :
    cosineLoop a b = (num (dotProduct a (b.take a.length)), num (sumSquares a),
      num (sumSquares (b.take a.length))) := by
  have := loop_inside a b a.length (Nat.le_refl _) h
  simpa [cosineLoop] using this

theorem cosineLoop_gt (a b : List α) (h : b.length < a.length) :
    cosineLoop a b = (nan, num (sumSquares a), nan) := by
  have := loop_outside a b a.length (Nat.le_refl _) h
  simpa [cosineLoop] using this

theorem sumSquares_nil : sumSquares ([] : List α) = 0 := by
  simp [sumSquares]

theorem sumSquares_cons (x : α) (vec : List α) :
    sumSquares (x :: vec) = x * x + sumSquares vec := by
  simp [sumSquares_eq]

theorem dotProduct_comm (a b : List α) : dotProduct a b = dotProduct b a := by
  unfold dotProduct
  induction a generalizing b with
  | nil => cases b <;> simp
  | cons x a ih =>
    cases b with
    | nil => simp
    | cons y b => simp [ih b, mul_comm]

theorem dotProduct_self (a : List α) : dotProduct a a = sumSquares a := by
  rw [sumSquares_eq]
  unfold dotProduct
  induction a with
  | nil => simp
  | cons x a ih => simp [ih]

/-- The Cauchy-Schwarz inequality on lists. -/
theorem dotProduct_sq_le (a b : List α) :
    dotProduct a b ^ 2 ≤ sumSquares a * sumSquares b := by
  induction a generalizing b with
  | nil => simp [dotProduct, sumSquares_nil]
  | cons x a ih =>
    cases b with
    | nil =>
      have := sumSquares_nonneg (x :: a)
      simp [dotProduct, sumSquares_nil]
    | cons y b =>
      have hA := sumSquares_nonneg a
      have hB := sumSquares_nonneg b
      have hD := ih b
      have hcons : dotProduct (x :: a) (y :: b) = x * y + dotProduct a b := by
        simp [dotProduct]
      rw [hcons, sumSquares_cons, sumSquares_cons]
      have hR : 0 ≤ x * x * sumSquares b + y * y * sumSquares a :=
        add_nonneg (mul_nonneg (mul_self_nonneg x) hB) (mul_nonneg (mul_self_nonneg y) hA)
      have hsq : (2 * (x * y) * dotProduct a b) ^ 2
          ≤ (x * x * sumSquares b + y * y * sumSquares a) ^ 2 := by
        have h1 : 0 ≤ (x * y) ^ 2 := sq_nonneg _
        have h2 := mul_le_mul_of_nonneg_left hD h1
        nlinarith [sq_nonneg (x * x * sumSquares b - y * y * sumSquares a)]
      have hle := (abs_le_of_sq_le_sq' hsq hR).2
      nlinarith

end LoopLemmas

/-! ## Lemmas on `cosine` over the reals -/

theorem cosine_of_le (a b : List ℝ) (ha : a ≠ []) (h : a.length ≤ b.length) :
    cosine Real.sqrt (.array a) (.array b)
      = if sumSquares a = 0 ∨ sumSquares (b.take a.length) = 0 then num 0
        else num (dotProduct a (b.take a.length)
          / (Real.sqrt (sumSquares a) * Real.sqrt (sumSquares (b.take a.length)))) := by
  have hal : a.length ≠ 0 := fun h0 => ha (List.length_eq_zero.1 h0)
  have hbl : b.length ≠ 0 := fun h0 => hal (Nat.le_zero.1 (h0 ▸ h))
  have hA := sumSquares_nonneg a
  have hB := sumSquares_nonneg (b.take a.length)
  simp only [cosine, hal, hbl, or_self, if_false, cosineLoop_le a b h, JsNum.isZero,
    Bool.or_eq_true, decide_eq_true_eq]
  split_ifs with h0
  · rfl
  · push_neg at h0
    have hA' : 0 < sumSquares a := lt_of_le_of_ne hA (Ne.symm h0.1)
    have hB' : 0 < sumSquares (b.take a.length) := lt_of_le_of_ne hB (Ne.symm h0.2)
    have hprod : Real.sqrt (sumSquares a) * Real.sqrt (sumSquares (b.take a.length)) ≠ 0 :=
      mul_ne_zero (Real.sqrt_ne_zero'.2 hA') (Real.sqrt_ne_zero'.2 hB')
    simp [JsNum.sqrt, not_lt.2 hA, not_lt.2 hB, JsNum.mul, JsNum.div, hprod]

theorem cosine_of_gt (a b : List ℝ) (hb : b ≠ []) (h : b.length < a.length) :
    cosine Real.sqrt (.array a) (.array b) = if sumSquares a = 0 then num 0 else nan := by
  have hbl : b.length ≠ 0 := fun h0 => hb (List.length_eq_zero.1 h0)
  have hal : a.length ≠ 0 := fun h0 => Nat.not_lt_zero _ (h0 ▸ h)
  simp only [cosine, hal, hbl, or_self, if_false, cosineLoop_gt a b h, JsNum.isZero,
    Bool.or_false, decide_eq_true_eq]
  split_ifs with h0
  · rfl
  · simp [JsNum.sqrt, JsNum.mul, JsNum.div]

theorem cosine_of_empty_left (b : JsValue ℝ) : cosine Real.sqrt (.array []) b = num 0 := by
  cases b <;> simp [cosine]

theorem cosine_of_empty_right (a : JsValue ℝ) : cosine Real.sqrt a (.array []) = num 0 := by
  cases a <;> simp [cosine]

/-- The quotient of `cosine` lies between `-1` and `1`. -/
theorem quotient_bounds (a b : List ℝ) (hA : 0 < sumSquares a) (hB : 0 < sumSquares b) :
    -1 ≤ dotProduct a b / (Real.sqrt (sumSquares a) * Real.sqrt (sumSquares b))
      ∧ dotProduct a b / (Real.sqrt (sumSquares a) * Real.sqrt (sumSquares b)) ≤ 1 := by
  have hpos : 0 < Real.sqrt (sumSquares a) * Real.sqrt (sumSquares b) :=
    mul_pos (Real.sqrt_pos.2 hA) (Real.sqrt_pos.2 hB)
  have habs : |dotProduct a b| ≤ Real.sqrt (sumSquares a) * Real.sqrt (sumSquares b) := by
    rw [← Real.sqrt_mul (le_of_lt hA)]
    exact Real.abs_le_sqrt (dotProduct_sq_le a b)
  have := abs_le.1 habs
  constructor
  · rw [le_div_iff₀ hpos]
    linarith [this.1]
  · rw [div_le_one hpos]
    exact this.2

/-! ## Lemmas on `mockEmbedding` over the reals -/

theorem rawVector_length (hash : Digest) (dim : Nat) :
    (rawVector hash dim : List ℝ).length = dim := by
  simp [rawVector]

/-- No byte is carried to `0`: that would need the byte `127.5`. -/
theorem rawVector_ne_zero (hash : Digest) (dim : Nat) :
    ∀ v ∈ (rawVector hash dim : List ℝ), v ≠ 0 := by
  intro v hv
  simp only [rawVector, List.mem_map, List.mem_range] at hv
  obtain ⟨i, -, rfl⟩ := hv
  intro h0
  have h1 : (((hash ⟨i % 32, Nat.mod_lt i (by decide)⟩).val : ℕ) : ℝ) * 2 = 255 := by
    field_simp at h0
    linarith
  have h2 : (hash ⟨i % 32, Nat.mod_lt i (by decide)⟩).val * 2 = 255 := by
    exact_mod_cast h1
  omega

theorem sumSquares_pos_of_ne_zero (vec : List ℝ) (hne : vec ≠ [])
    (h : ∀ v ∈ vec, v ≠ 0) : 0 < sumSquares vec := by
  cases vec with
  | nil => exact absurd rfl hne
  | cons x xs =>
    rw [sumSquares_cons]
    have hx : 0 < x * x := mul_self_pos.2 (h x (List.mem_cons_self x xs))
    have := sumSquares_nonneg xs
    linarith

theorem sumSquares_map_div (vec : List ℝ) (c : ℝ) :
    sumSquares (vec.map fun v => v / c) = sumSquares vec / (c * c) := by
  induction vec with
  | nil => simp [sumSquares_nil]
  | cons x xs ih =>
    rw [List.map_cons, sumSquares_cons, sumSquares_cons, ih]
    field_simp

theorem mockEmbedding_length (sha256 : String → Digest) (text : Option String) (dim : Nat) :
    (mockEmbedding Real.sqrt sha256 text dim).length = dim := by
  simp [mockEmbedding, rawVector_length]

theorem mockEmbedding_sumSquares (sha256 : String → Digest) (text : Option String) (dim : Nat)
    (hdim : 1 ≤ dim) : sumSquares (mockEmbedding Real.sqrt sha256 text dim) = 1 := by
  have hne : (rawVector (sha256 (orElse text "")) dim : List ℝ) ≠ [] := by
    intro h
    have := rawVector_length (sha256 (orElse text "")) dim
    rw [h] at this
    simp at this
    omega
  have hpos := sumSquares_pos_of_ne_zero _ hne (rawVector_ne_zero (sha256 (orElse text "")) dim)
  have hroot : Real.sqrt (sumSquares (rawVector (sha256 (orElse text "")) dim : List ℝ)) ≠ 0 :=
    Real.sqrt_ne_zero'.2 hpos
  simp only [mockEmbedding, hroot, if_false]
  rw [sumSquares_map_div, Real.mul_self_sqrt (le_of_lt hpos)]
  exact div_self (ne_of_gt hpos)

theorem cosine_self (a : List ℝ) (h : 0 < sumSquares a) :
    cosine Real.sqrt (.array a) (.array a) = num 1 := by
  have hne : a ≠ [] := by
    intro h0
    rw [h0, sumSquares_nil] at h
    exact lt_irrefl _ h
  rw [cosine_of_le a a hne (Nat.le_refl _), List.take_length, dotProduct_self]
  have h0 : ¬ (sumSquares a = 0 ∨ sumSquares a = 0) := by
    simp [ne_of_gt h]
  rw [if_neg h0, Real.mul_self_sqrt (le_of_lt h), div_self (ne_of_gt h)]

/-! ## Lemmas on the sort and the slice -/

section SortLemmas

variable {α : Type} [LinearOrderedField α] {β : Type}

theorem length_sortInsert (cmp : β → β → JsNum α) (x : β) (l : List β) :
    (sortInsert cmp x l).length = l.length + 1 := by
  induction l with
  | nil => rfl
  | cons y ys ih =>
    simp only [sortInsert]
    split_ifs <;> simp [ih]

theorem length_jsSort (cmp : β → β → JsNum α) (l : List β) :
    (jsSort cmp l).length = l.length := by
  induction l with
  | nil => rfl
  | cons x xs ih => simp [jsSort, length_sortInsert, ih]

theorem mem_sortInsert (cmp : β → β → JsNum α) (x z : β) (l : List β) :
    z ∈ sortInsert cmp x l ↔ z = x ∨ z ∈ l := by
  induction l with
  | nil => simp [sortInsert]
  | cons y ys ih =>
    simp only [sortInsert]
    split_ifs
    · simp only [List.mem_cons, ih]
      tauto
    · simp only [List.mem_cons]

theorem mem_jsSort (cmp : β → β → JsNum α) (z : β) (l : List β) :
    z ∈ jsSort cmp l ↔ z ∈ l := by
  induction l with
  | nil => simp [jsSort]
  | cons x xs ih => simp [jsSort, mem_sortInsert, ih]

theorem relativeIndex_le (len : Nat) (i : Int) : relativeIndex len i ≤ len := by
  unfold relativeIndex
  split_ifs with h
  · omega
  · exact Nat.min_le_right _ _

theorem slice_zero (xs : List β) (k : Int) :
    slice xs 0 k = xs.take (relativeIndex xs.length k) := by
  simp [slice, relativeIndex]

theorem length_slice_zero (xs : List β) (k : Int) :
    (slice xs 0 k).length = relativeIndex xs.length k := by
  rw [slice_zero, List.length_take]
  exact Nat.min_eq_left (relativeIndex_le _ _)

theorem sortInsert_descending (x : ScoredResult α) (l : List (ScoredResult α))
    (hx : x.score.isNum = true) (hl : ∀ y ∈ l, y.score.isNum = true) (hs : Descending l) :
    Descending (sortInsert compareScore x l) := by
  induction l with
  | nil => simp [sortInsert, Descending]
  | cons y ys ih =>
    have hy := hl y (List.mem_cons_self y ys)
    have hys : ∀ z ∈ ys, z.score.isNum = true := fun z hz => hl z (List.mem_cons_of_mem y hz)
    have hsy := List.pairwise_cons.1 hs
    obtain ⟨sx, hsx⟩ : ∃ v, x.score = num v := by
      cases h : x.score with
      | num v => exact ⟨v, rfl⟩
      | nan => rw [h] at hx; simp [JsNum.isNum] at hx
    obtain ⟨sy, hsy'⟩ : ∃ v, y.score = num v := by
      cases h : y.score with
      | num v => exact ⟨v, rfl⟩
      | nan => rw [h] at hy; simp [JsNum.isNum] at hy
    simp only [sortInsert, compareScore, hsx, hsy', JsNum.sub, isPositive, decide_eq_true_eq,
      sub_pos]
    split_ifs with hlt
    · refine List.pairwise_cons.2 ⟨?_, ih hys hsy.2⟩
      intro z hz
      rcases (mem_sortInsert compareScore x z ys).1 hz with rfl | hz
      · simp only [hsy', hsx, JsNum.ge]
        exact le_of_lt hlt
      · exact hsy.1 z hz
    · refine List.pairwise_cons.2 ⟨?_, hs⟩
      intro z hz
      rcases List.mem_cons.1 hz with rfl | hz
      · simp only [hsy', hsx, JsNum.ge]
        exact not_lt.1 hlt
      · have hyz := hsy.1 z hz
        cases hzs : z.score with
        | nan => rw [hsy', hzs] at hyz; exact hyz.elim
        | num sz =>
          rw [hsy', hzs] at hyz
          simp only [hsx, JsNum.ge] at hyz ⊢
          exact le_trans hyz (not_lt.1 hlt)

theorem jsSort_descending (l : List (ScoredResult α)) (hl : ∀ y ∈ l, y.score.isNum = true) :
    Descending (jsSort compareScore l) := by
  induction l with
  | nil => simp [jsSort, Descending]
  | cons x xs ih =>
    have hxs : ∀ y ∈ xs, y.score.isNum = true := fun y hy => hl y (List.mem_cons_of_mem x hy)
    exact sortInsert_descending x _ (hl x (List.mem_cons_self x xs))
      (fun y hy => hxs y ((mem_jsSort compareScore y xs).1 hy)) (ih hxs)

theorem length_rank (sqrtFn : α → α) (parse : String → Except String (JsValue α))
    (queryVector : List α) (allResumes : List JsObject) (k : Int) :
    (rank sqrtFn parse queryVector allResumes k).length = relativeIndex allResumes.length k := by
  simp [rank, scoredResumes, length_slice_zero, length_jsSort]

theorem mem_rank (sqrtFn : α → α) (parse : String → Except String (JsValue α))
    (queryVector : List α) (allResumes : List JsObject) (k : Int) (r : ScoredResult α)
    (hr : r ∈ rank sqrtFn parse queryVector allResumes k) :
    ∃ resume ∈ allResumes, r = scoreResume sqrtFn parse queryVector resume := by
  simp only [rank, scoredResumes, slice_zero] at hr
  have h1 := List.mem_of_mem_take hr
  rw [mem_jsSort] at h1
  obtain ⟨resume, hmem, rfl⟩ := List.mem_map.1 h1
  exact ⟨resume, hmem, rfl⟩

theorem rank_descending (sqrtFn : α → α) (parse : String → Except String (JsValue α))
    (queryVector : List α) (allResumes : List JsObject) (k : Int)
    (h : ∀ resume ∈ allResumes,
      (scoreResume sqrtFn parse queryVector resume).score.isNum = true) :
    Descending (rank sqrtFn parse queryVector allResumes k) := by
  simp only [rank, scoredResumes, slice_zero]
  apply List.Pairwise.sublist (List.take_sublist _ _)
  apply jsSort_descending
  intro y hy
  obtain ⟨resume, hmem, rfl⟩ := List.mem_map.1 hy
  exact h resume hmem

end SortLemmas

/-! ## Lemmas on the store -/

theorem digitChar_value (d : Nat) (h : d < 10) : (Nat.digitChar d).toNat - 48 = d := by
  interval_cases d <;> rfl

theorem toDigitsCore_value (fuel : Nat) :
    ∀ (n : Nat) (ds : List Char), n < fuel →
      (Nat.toDigitsCore 10 fuel n ds).foldl digitValue 0 = ds.foldl digitValue n := by
  induction fuel with
  | zero => intro n ds h; exact absurd h (Nat.not_lt_zero _)
  | succ fuel ih =>
    intro n ds h
    have hd : digitValue (n / 10) (Nat.digitChar (n % 10)) = n := by
      simp only [digitValue, digitChar_value (n % 10) (Nat.mod_lt n (by decide))]
      omega
    simp only [Nat.toDigitsCore]
    split_ifs with h0
    · have hn : digitValue 0 (Nat.digitChar (n % 10)) = n := by
        rw [h0] at hd
        exact hd
      simp [List.foldl_cons, hn]
    · have hlt : n / 10 < fuel := by omega
      rw [ih (n / 10) _ hlt, List.foldl_cons, hd]

theorem decimalValue_toString (n : Nat) : decimalValue (toString n) = n := by
  show (Nat.toDigits 10 n).asString.data.foldl digitValue 0 = n
  simp only [Nat.toDigits, List.asString]
  rw [toDigitsCore_value (n + 1) n [] (Nat.lt_succ_self n)]
  rfl

theorem toString_injective : Function.Injective (fun n : Nat => toString n) := by
  intro m n h
  have := congrArg decimalValue h
  simpa [decimalValue_toString] using this

theorem storedRecord_id (id : Nat) (u : Upload) :
    (storedRecord id u).get "id" = some (toString id) := by
  simp [storedRecord, newResume, resumeData, JsObject.spread, JsObject.set, JsObject.get]

theorem insertUploads_resumes (us : List Upload) :
    ∀ file : DbFile, (readDb (insertUploads file us).1).resumes
      = (readDb file).resumes
        ++ (List.enumFrom ((readDb file).lastId + 1) us).map fun p => storedRecord p.1 p.2 := by
  induction us with
  | nil => intro file; simp [insertUploads]
  | cons u us ih =>
    intro file
    simp only [insertUploads, ih, List.enumFrom_cons, List.map_cons]
    simp [insertResume, readDb, writeDb, storedRecord]

theorem insertUploads_lastId (us : List Upload) :
    ∀ file : DbFile, (readDb (insertUploads file us).1).lastId
      = (readDb file).lastId + us.length := by
  induction us with
  | nil => intro file; simp [insertUploads]
  | cons u us ih =>
    intro file
    simp only [insertUploads, ih, List.length_cons]
    simp [insertResume, readDb, writeDb]
    omega

theorem insertUploads_ids (us : List Upload) :
    ∀ file : DbFile, (insertUploads file us).2
      = (List.enumFrom ((readDb file).lastId + 1) us).map fun p => some (toString p.1) := by
  induction us with
  | nil => intro file; simp [insertUploads]
  | cons u us ih =>
    intro file
    simp only [insertUploads, ih, List.enumFrom_cons, List.map_cons]
    have h := storedRecord_id ((readDb file).lastId + 1) u
    simp only [storedRecord] at h
    simp only [insertResume, writeDb, h]
    simp [readDb]

/-! ## Properties of the embedding and of `cosine` -/

/-- C6: for every text and every `dim >= 1`, `mockEmbedding(text, dim)` has
`dim` components and Euclidean norm 1 over the reals, the digest being an
arbitrary sequence of 32 bytes; at `dim = 128` this is the vector every upload
and every query gets. -/
theorem mockEmbedding_unit (sha256 : String → Digest) (text : Option String) (dim : Nat)
    (hdim : 1 ≤ dim) :
    (mockEmbedding Real.sqrt sha256 text dim).length = dim
      ∧ euclideanNorm Real.sqrt (mockEmbedding Real.sqrt sha256 text dim) = 1 := by
  refine ⟨mockEmbedding_length sha256 text dim, ?_⟩
  rw [euclideanNorm, mockEmbedding_sumSquares sha256 text dim hdim, Real.sqrt_one]

theorem mockEmbedding_unit_witness :
    1 ≤ 128 ∧ (mockEmbedding Real.sqrt zeroDigest (some "") 128).length = 128
      ∧ euclideanNorm Real.sqrt (mockEmbedding Real.sqrt zeroDigest (some "") 128) = 1 :=
  ⟨by decide, mockEmbedding_unit zeroDigest (some "") 128 (by decide)⟩

theorem search_nonempty_query {α : Type} [LinearOrderedField α] (sqrtFn : α → α)
    (sha256 : String → Digest) (parse : String → Except String (JsValue α)) (file : DbFile)
    (query : String) (hq : query ≠ "") (top_k : Option Int) :
    search sqrtFn sha256 parse file ⟨some query, top_k⟩
      = .ok (rank sqrtFn parse (getEmbedding sqrtFn sha256 query) (getAllResumes file)
          (resultCount top_k)) := by
  simp [search, hq]

theorem stored_score_one (sha256 : String → Digest) (stringify : List ℝ → String)
    (parse : String → Except String (JsValue ℝ)) (text id originalname now : String)
    (name email : Option String)
    (hs : stringify (getEmbedding Real.sqrt sha256 text) ≠ "")
    (hrt : parse (stringify (getEmbedding Real.sqrt sha256 text))
      = .ok (.array (getEmbedding Real.sqrt sha256 text))) :
    (scoreResume Real.sqrt parse (getEmbedding Real.sqrt sha256 text)
        (newResume id (resumeData name email text
          (stringify (getEmbedding Real.sqrt sha256 text)) originalname) now)).score
      = num 1 := by
  have hsum : sumSquares (getEmbedding Real.sqrt sha256 text) = 1 :=
    mockEmbedding_sumSquares sha256 (some text) 128 (by decide)
  have hself := cosine_self (getEmbedding Real.sqrt sha256 text) (by rw [hsum]; exact one_pos)
  have hget : (newResume id (resumeData name email text
      (stringify (getEmbedding Real.sqrt sha256 text)) originalname) now).get "embedding"
      = some (stringify (getEmbedding Real.sqrt sha256 text)) := by
    simp [newResume, resumeData, JsObject.spread, JsObject.set, JsObject.get]
  simp only [scoreResume, hget, orElse, if_neg hs, hrt]
  exact hself

theorem ne_empty_of_not_blank (text : String) (h : isBlank text = false) : text ≠ "" := by
  intro h0
  subst h0
  simp [isBlank] at h

theorem jsSort_pair_equal {α : Type} [LinearOrderedField α] (x y : ScoredResult α) (v : α)
    (hx : x.score = num v) (hy : y.score = num v) :
    jsSort compareScore [x, y] = [x, y] := by
  simp [jsSort, sortInsert, compareScore, hx, hy, JsNum.sub, isPositive]

/-- C7: the vector computed for a stored resume and the vector computed for a
query with the same text are the same vector and its cosine with itself is 1
over the reals; so after two uploads of resumes with the same non-blank text
into the empty store, both are stored, a search for that text answers with
exactly these two records, in upload order, each with score 1, and for every
`top_k` every result of the search has score 1, provided `JSON.parse` reads
back the vector that `JSON.stringify` wrote. -/
theorem same_text_scores_one (sha256 : String → Digest) (stringify : List ℝ → String)
    (parse : String → Except String (JsValue ℝ)) (text : String)
    (name₁ email₁ name₂ email₂ : Option String) (file₁ now₁ file₂ now₂ : String)
    (hb : isBlank text = false)
    (hs : stringify (getEmbedding Real.sqrt sha256 text) ≠ "")
    (hrt : parse (stringify (getEmbedding Real.sqrt sha256 text))
      = .ok (.array (getEmbedding Real.sqrt sha256 text))) :
    cosine Real.sqrt (.array (getEmbedding Real.sqrt sha256 text))
        (.array (getEmbedding Real.sqrt sha256 text)) = num 1
      ∧ (uploadSave Real.sqrt sha256 stringify (init none) name₁ email₁ text file₁ now₁).2
          = .ok (some "1")
      ∧ (uploadSave Real.sqrt sha256 stringify
          (uploadSave Real.sqrt sha256 stringify (init none) name₁ email₁ text file₁ now₁).1
          name₂ email₂ text file₂ now₂).2 = .ok (some "2")
      ∧ (getAllResumes (uploadSave Real.sqrt sha256 stringify
          (uploadSave Real.sqrt sha256 stringify (init none) name₁ email₁ text file₁ now₁).1
          name₂ email₂ text file₂ now₂).1).length = 2
      ∧ (search Real.sqrt sha256 parse
          (uploadSave Real.sqrt sha256 stringify
            (uploadSave Real.sqrt sha256 stringify (init none) name₁ email₁ text file₁ now₁).1
            name₂ email₂ text file₂ now₂).1
          ⟨some text, none⟩).results.map (fun r => (r.id, r.name, r.score))
        = [(some "1", some (orElse name₁ "Unknown Candidate"), num 1),
           (some "2", some (orElse name₂ "Unknown Candidate"), num 1)]
      ∧ ∀ (top_k : Option Int), ∀ r ∈ (search Real.sqrt sha256 parse
          (uploadSave Real.sqrt sha256 stringify
            (uploadSave Real.sqrt sha256 stringify (init none) name₁ email₁ text file₁ now₁).1
            name₂ email₂ text file₂ now₂).1
          ⟨some text, top_k⟩).results, r.score = num 1 := by
  have ht : text ≠ "" := ne_empty_of_not_blank text hb
  have hsum : sumSquares (getEmbedding Real.sqrt sha256 text) = 1 :=
    mockEmbedding_sumSquares sha256 (some text) 128 (by decide)
  have hself := cosine_self (getEmbedding Real.sqrt sha256 text) (by rw [hsum]; exact one_pos)
  have hup₁ : uploadSave Real.sqrt sha256 stringify (init none) name₁ email₁ text file₁ now₁
      = (some { resumes := [newResume (toString 1) (resumeData name₁ email₁ text
            (stringify (getEmbedding Real.sqrt sha256 text)) file₁) now₁], lastId := 1 },
         .ok (some "1")) := by
    simp only [uploadSave, hb, Bool.false_eq_true, if_false, insertResume, readDb, writeDb, init]
    simp [newResume, resumeData, JsObject.spread, JsObject.set, JsObject.get]
    rfl
  have hup₂ : uploadSave Real.sqrt sha256 stringify
      (uploadSave Real.sqrt sha256 stringify (init none) name₁ email₁ text file₁ now₁).1
      name₂ email₂ text file₂ now₂
      = (some { resumes := [newResume (toString 1) (resumeData name₁ email₁ text
            (stringify (getEmbedding Real.sqrt sha256 text)) file₁) now₁,
          newResume (toString 2) (resumeData name₂ email₂ text
            (stringify (getEmbedding Real.sqrt sha256 text)) file₂) now₂], lastId := 2 },
         .ok (some "2")) := by
    rw [hup₁]
    simp only [uploadSave, hb, Bool.false_eq_true, if_false, insertResume, readDb, writeDb]
    simp [newResume, resumeData, JsObject.spread, JsObject.set, JsObject.get]
    rfl
  have hall : getAllResumes (uploadSave Real.sqrt sha256 stringify
      (uploadSave Real.sqrt sha256 stringify (init none) name₁ email₁ text file₁ now₁).1
      name₂ email₂ text file₂ now₂).1
      = [newResume (toString 1) (resumeData name₁ email₁ text
          (stringify (getEmbedding Real.sqrt sha256 text)) file₁) now₁,
         newResume (toString 2) (resumeData name₂ email₂ text
          (stringify (getEmbedding Real.sqrt sha256 text)) file₂) now₂] := by
    rw [hup₂]
    rfl
  have h₁ := stored_score_one sha256 stringify parse text (toString 1) file₁ now₁ name₁ email₁
    hs hrt
  have h₂ := stored_score_one sha256 stringify parse text (toString 2) file₂ now₂ name₂ email₂
    hs hrt
  refine ⟨hself, by rw [hup₁], by rw [hup₂], by rw [hall]; rfl, ?_, ?_⟩
  · rw [search_nonempty_query Real.sqrt sha256 parse _ text ht none, hall]
    simp only [SearchResponse.results, rank, scoredResumes, List.map_cons, List.map_nil]
    rw [jsSort_pair_equal _ _ 1 h₁ h₂, slice_zero]
    have hk : relativeIndex [scoreResume Real.sqrt parse (getEmbedding Real.sqrt sha256 text)
          (newResume (toString 1) (resumeData name₁ email₁ text
            (stringify (getEmbedding Real.sqrt sha256 text)) file₁) now₁),
        scoreResume Real.sqrt parse (getEmbedding Real.sqrt sha256 text)
          (newResume (toString 2) (resumeData name₂ email₂ text
            (stringify (getEmbedding Real.sqrt sha256 text)) file₂) now₂)].length
        (resultCount none) = 2 := by
      simp [resultCount, relativeIndex]
    rw [hk]
    simp only [List.take, List.map_cons, List.map_nil, h₁, h₂]
    simp [scoreResume, newResume, resumeData, JsObject.spread, JsObject.set, JsObject.get]
    exact ⟨rfl, rfl⟩
  · intro top_k r hr
    rw [search_nonempty_query Real.sqrt sha256 parse _ text ht top_k] at hr
    obtain ⟨resume, hmem, rfl⟩ := mem_rank Real.sqrt parse _ _ _ r hr
    rw [hall] at hmem
    simp only [List.mem_cons, List.mem_singleton, List.not_mem_nil, or_false] at hmem
    rcases hmem with rfl | rfl
    · exact h₁
    · exact h₂

theorem same_text_scores_one_witness :
    isBlank "engineer" = false
      ∧ (fun _ : List ℝ => "v") (getEmbedding Real.sqrt zeroDigest "engineer") ≠ ""
      ∧ cosine Real.sqrt (.array (getEmbedding Real.sqrt zeroDigest "engineer"))
          (.array (getEmbedding Real.sqrt zeroDigest "engineer")) = num 1
      ∧ (uploadSave Real.sqrt zeroDigest (fun _ : List ℝ => "v") (init none)
            (some "Ann") none "engineer" "ann.pdf" "2024-01-01T00:00:00.000Z").2
          = .ok (some "1")
      ∧ (uploadSave Real.sqrt zeroDigest (fun _ : List ℝ => "v")
          (uploadSave Real.sqrt zeroDigest (fun _ : List ℝ => "v") (init none)
            (some "Ann") none "engineer" "ann.pdf" "2024-01-01T00:00:00.000Z").1
          (some "Bob") none "engineer" "bob.pdf" "2024-01-02T00:00:00.000Z").2
          = .ok (some "2")
      ∧ (getAllResumes (uploadSave Real.sqrt zeroDigest (fun _ : List ℝ => "v")
          (uploadSave Real.sqrt zeroDigest (fun _ : List ℝ => "v") (init none)
            (some "Ann") none "engineer" "ann.pdf" "2024-01-01T00:00:00.000Z").1
          (some "Bob") none "engineer" "bob.pdf" "2024-01-02T00:00:00.000Z").1).length = 2
      ∧ (search Real.sqrt zeroDigest
          (fun _ => .ok (.array (getEmbedding Real.sqrt zeroDigest "engineer")))
          (uploadSave Real.sqrt zeroDigest (fun _ : List ℝ => "v")
            (uploadSave Real.sqrt zeroDigest (fun _ : List ℝ => "v") (init none)
              (some "Ann") none "engineer" "ann.pdf" "2024-01-01T00:00:00.000Z").1
            (some "Bob") none "engineer" "bob.pdf" "2024-01-02T00:00:00.000Z").1
          ⟨some "engineer", none⟩).results.map (fun r => (r.id, r.name, r.score))
        = [(some "1", some (orElse (some "Ann") "Unknown Candidate"), num 1),
           (some "2", some (orElse (some "Bob") "Unknown Candidate"), num 1)]
      ∧ ∀ (top_k : Option Int), ∀ r ∈ (search Real.sqrt zeroDigest
          (fun _ => .ok (.array (getEmbedding Real.sqrt zeroDigest "engineer")))
          (uploadSave Real.sqrt zeroDigest (fun _ : List ℝ => "v")
            (uploadSave Real.sqrt zeroDigest (fun _ : List ℝ => "v") (init none)
              (some "Ann") none "engineer" "ann.pdf" "2024-01-01T00:00:00.000Z").1
            (some "Bob") none "engineer" "bob.pdf" "2024-01-02T00:00:00.000Z").1
          ⟨some "engineer", top_k⟩).results, r.score = num 1 :=
  ⟨by decide, by decide,
   same_text_scores_one zeroDigest (fun _ => "v")
    (fun _ => .ok (.array (getEmbedding Real.sqrt zeroDigest "engineer")))
    "engineer" (some "Ann") none (some "Bob") none "ann.pdf" "2024-01-01T00:00:00.000Z"
    "bob.pdf" "2024-01-02T00:00:00.000Z" (by decide) (by decide) rfl⟩

/-- C8: for non-empty real vectors of the same length that have Euclidean
norm 1, `cosine(a, b)` is a number between `-1` and `1`. -/
theorem cosine_bounded (a b : List ℝ) (hne : a ≠ []) (hlen : a.length = b.length)
    (ha : euclideanNorm Real.sqrt a = 1) (hb : euclideanNorm Real.sqrt b = 1) :
    ∃ x : ℝ, cosine Real.sqrt (.array a) (.array b) = num x ∧ -1 ≤ x ∧ x ≤ 1 := by
  have hA : 0 < sumSquares a := by
    by_contra h
    have h0 : Real.sqrt (sumSquares a) = 0 := Real.sqrt_eq_zero_of_nonpos (not_lt.1 h)
    rw [euclideanNorm, h0] at ha
    exact zero_ne_one ha
  have hB : 0 < sumSquares b := by
    by_contra h
    have h0 : Real.sqrt (sumSquares b) = 0 := Real.sqrt_eq_zero_of_nonpos (not_lt.1 h)
    rw [euclideanNorm, h0] at hb
    exact zero_ne_one hb
  have htake : b.take a.length = b := by rw [hlen, List.take_length]
  have hcos := cosine_of_le a b hne (le_of_eq hlen)
  rw [htake] at hcos
  have h0 : ¬ (sumSquares a = 0 ∨ sumSquares b = 0) := by
    simp [ne_of_gt hA, ne_of_gt hB]
  rw [if_neg h0] at hcos
  exact ⟨_, hcos, quotient_bounds a b hA hB⟩

theorem cosine_bounded_witness :
    ([1] : List ℝ) ≠ [] ∧ ([1] : List ℝ).length = ([1] : List ℝ).length
      ∧ euclideanNorm Real.sqrt ([1] : List ℝ) = 1
      ∧ ∃ x : ℝ, cosine Real.sqrt (.array [1]) (.array [1]) = num x ∧ -1 ≤ x ∧ x ≤ 1 :=
  ⟨by simp, rfl, by simp [euclideanNorm, sumSquares],
   cosine_bounded [1] [1] (by simp) rfl (by simp [euclideanNorm, sumSquares])
    (by simp [euclideanNorm, sumSquares])⟩

/-- C9, as stated, fails: with `a = [1]` and `b = [1, 2]` the call
`cosine(a, b)` is 1 while `cosine(b, a)` reads `a[1]`, which is `undefined`,
and is `NaN`. -/
theorem cosine_not_symmetric_example :
    cosine Real.sqrt (.array [1]) (.array [1, 2]) = num 1
      ∧ cosine Real.sqrt (.array [1, 2]) (.array [1]) = nan
      ∧ cosine Real.sqrt (.array [1]) (.array [1, 2])
          ≠ cosine Real.sqrt (.array [1, 2]) (.array [1]) := by
  have h1 : cosine Real.sqrt (.array [1]) (.array [1, 2]) = num 1 := by
    rw [cosine_of_le [1] [1, 2] (by simp) (by simp)]
    simp [sumSquares, dotProduct]
  have h2 : cosine Real.sqrt (.array [1, 2]) (.array [1]) = nan := by
    rw [cosine_of_gt [1, 2] [1] (by simp) (by simp)]
    have : sumSquares ([1, 2] : List ℝ) ≠ 0 := by
      simp [sumSquares]
      norm_num
    rw [if_neg this]
  refine ⟨h1, h2, ?_⟩
  rw [h1, h2]
  intro h
  cases h

/-- C9, amended: for arrays of the same length, and whenever one of the two is
empty, `cosine(a, b)` equals `cosine(b, a)`. -/
theorem cosine_symmetric (a b : List ℝ) (h : a.length = b.length ∨ a = [] ∨ b = []) :
    cosine Real.sqrt (.array a) (.array b) = cosine Real.sqrt (.array b) (.array a) := by
  rcases h with h | h | h
  · by_cases ha : a = []
    · subst ha
      rw [cosine_of_empty_left, cosine_of_empty_right]
    · have hb : b ≠ [] := by
        intro hb
        subst hb
        exact ha (List.length_eq_zero.1 h)
      rw [cosine_of_le a b ha (le_of_eq h), cosine_of_le b a hb (le_of_eq h.symm)]
      have h1 : b.take a.length = b := by rw [h, List.take_length]
      have h2 : a.take b.length = a := by rw [← h, List.take_length]
      rw [h1, h2, dotProduct_comm a b, mul_comm (Real.sqrt (sumSquares a))]
      by_cases h0 : sumSquares a = 0 ∨ sumSquares b = 0
      · rw [if_pos h0, if_pos (Or.symm h0)]
      · rw [if_neg h0, if_neg (fun h3 => h0 (Or.symm h3))]
  · subst h
    rw [cosine_of_empty_left, cosine_of_empty_right]
  · subst h
    rw [cosine_of_empty_left, cosine_of_empty_right]

theorem cosine_symmetric_witness :
    (([1, 2] : List ℝ).length = ([3, 4] : List ℝ).length ∨ ([1, 2] : List ℝ) = []
        ∨ ([3, 4] : List ℝ) = [])
      ∧ cosine Real.sqrt (.array [1, 2]) (.array [3, 4])
          = cosine Real.sqrt (.array [3, 4]) (.array [1, 2]) :=
  ⟨Or.inl rfl, cosine_symmetric [1, 2] [3, 4] (Or.inl rfl)⟩

/-- C3, as stated, fails in both directions: `cosine([1], [1, 2])` is 1 and
`cosine([1, 2], [1])` is `NaN`, neither is 0. -/
theorem cosine_mismatch_example :
    ([1] : List ℝ).length ≠ ([1, 2] : List ℝ).length
      ∧ cosine Real.sqrt (.array [1]) (.array [1, 2]) ≠ num 0
      ∧ cosine Real.sqrt (.array [1, 2]) (.array [1]) ≠ num 0 := by
  have h1 : cosine Real.sqrt (.array [1]) (.array [1, 2]) = num 1 := by
    rw [cosine_of_le [1] [1, 2] (by simp) (by simp)]
    simp [sumSquares, dotProduct]
  have h2 : cosine Real.sqrt (.array [1, 2]) (.array [1]) = nan := by
    rw [cosine_of_gt [1, 2] [1] (by simp) (by simp)]
    have : sumSquares ([1, 2] : List ℝ) ≠ 0 := by
      simp [sumSquares]
      norm_num
    rw [if_neg this]
  refine ⟨by simp, ?_, ?_⟩
  · rw [h1]
    intro h
    have := JsNum.num.inj h
    norm_num at this
  · rw [h2]
    intro h
    cases h

theorem sumSquares_zero_of_all_zero (a : List ℝ) (h : ∀ x ∈ a, x = 0) : sumSquares a = 0 := by
  induction a with
  | nil => exact sumSquares_nil
  | cons x xs ih =>
    rw [sumSquares_cons, h x (List.mem_cons_self x xs),
      ih (fun y hy => h y (List.mem_cons_of_mem x hy))]
    simp

/-- C3, amended: for numeric arrays of different lengths `cosine(a, b)` is 0
when one of them is empty, and 0 when `a` is the longer one and every entry of
`a` is zero; when `b` is the longer one it is what `cosine` returns on `a` and
the first `a.length` entries of `b`. -/
theorem cosine_mismatch (a b : List ℝ) (h : a.length ≠ b.length) :
    (a = [] ∨ b = [] → cosine Real.sqrt (.array a) (.array b) = num 0)
      ∧ (b.length < a.length → (∀ x ∈ a, x = 0) →
          cosine Real.sqrt (.array a) (.array b) = num 0)
      ∧ (a.length < b.length →
          cosine Real.sqrt (.array a) (.array b)
            = cosine Real.sqrt (.array a) (.array (b.take a.length))) := by
  refine ⟨?_, ?_, ?_⟩
  · rintro (ha | hb)
    · subst ha
      exact cosine_of_empty_left _
    · subst hb
      exact cosine_of_empty_right _
  · intro hlt hzero
    by_cases hb : b = []
    · subst hb
      exact cosine_of_empty_right _
    · rw [cosine_of_gt a b hb hlt, if_pos (sumSquares_zero_of_all_zero a hzero)]
  · intro hlt
    by_cases ha : a = []
    · subst ha
      rw [cosine_of_empty_left, cosine_of_empty_left]
    · have hle : a.length ≤ b.length := le_of_lt hlt
      have hle2 : a.length ≤ (b.take a.length).length := by
        rw [List.length_take]
        exact le_min (le_refl _) hle
      rw [cosine_of_le a b ha hle, cosine_of_le a (b.take a.length) ha hle2,
        List.take_take, min_self]

theorem cosine_mismatch_witness :
    ([1] : List ℝ).length ≠ ([1, 2] : List ℝ).length
      ∧ (([1] : List ℝ) = [] ∨ ([1, 2] : List ℝ) = [] →
          cosine Real.sqrt (.array [1]) (.array [1, 2]) = num 0)
      ∧ (([1, 2] : List ℝ).length < ([1] : List ℝ).length → (∀ x ∈ ([1] : List ℝ), x = 0) →
          cosine Real.sqrt (.array [1]) (.array [1, 2]) = num 0)
      ∧ (([1] : List ℝ).length < ([1, 2] : List ℝ).length →
          cosine Real.sqrt (.array [1]) (.array [1, 2])
            = cosine Real.sqrt (.array [1])
              (.array (([1, 2] : List ℝ).take ([1] : List ℝ).length))) :=
  ⟨by simp, cosine_mismatch [1] [1, 2] (by simp)⟩

/-! ## Properties of the search handler -/

theorem nonIncreasing_of_descending {α : Type} [LinearOrderedField α]
    (l : List (ScoredResult α)) (h : Descending l) : NonIncreasing l := by
  induction l with
  | nil => trivial
  | cons x xs ih =>
    cases xs with
    | nil => trivial
    | cons y ys =>
      have hx := List.pairwise_cons.1 h
      exact ⟨hx.1 y (List.mem_cons_self y ys), ih hx.2⟩

theorem jsSort_zero_nan_one {α : Type} [LinearOrderedField α] (x y z : ScoredResult α)
    (hx : x.score = num 0) (hy : y.score = nan) (hz : z.score = num 1) :
    jsSort compareScore [x, y, z] = [x, y, z] := by
  simp [jsSort, sortInsert, compareScore, hx, hy, hz, JsNum.sub, isPositive]

theorem not_nonIncreasing_of_nan {α : Type} [LinearOrderedField α] (x y : ScoredResult α)
    (l : List (ScoredResult α)) (hy : y.score = nan) : ¬ NonIncreasing (x :: y :: l) := by
  intro h
  have hge : JsNum.ge x.score y.score := h.1
  rw [hy] at hge
  cases hx : x.score <;> rw [hx] at hge <;> exact hge

theorem empty_score_zero (id name : String) (queryVector : List ℝ) :
    (scoreResume Real.sqrt (parseStored Real.sqrt zeroDigest) queryVector
      (exampleRecord id name "[]")).score = num 0 := by
  have hget : (exampleRecord id name "[]").get "embedding" = some "[]" := by
    simp [exampleRecord, JsObject.get]
  have hparse : (parseStored Real.sqrt zeroDigest (orElse (some "[]") "[]")
      : Except String (JsValue ℝ)) = .ok (.array []) := by
    simp [parseStored, orElse]
  simp only [scoreResume, hget, hparse]
  exact cosine_of_empty_right _

theorem short_score_nan (id name query : String) :
    (scoreResume Real.sqrt (parseStored Real.sqrt zeroDigest)
      (getEmbedding Real.sqrt zeroDigest query) (exampleRecord id name "[1]")).score = nan := by
  have hsum : sumSquares (getEmbedding Real.sqrt zeroDigest query) = 1 :=
    mockEmbedding_sumSquares zeroDigest (some query) 128 (by decide)
  have hlen : (getEmbedding Real.sqrt zeroDigest query).length = 128 :=
    mockEmbedding_length zeroDigest (some query) 128
  have hget : (exampleRecord id name "[1]").get "embedding" = some "[1]" := by
    simp [exampleRecord, JsObject.get]
  have hparse : (parseStored Real.sqrt zeroDigest (orElse (some "[1]") "[]")
      : Except String (JsValue ℝ)) = .ok (.array [1]) := by
    simp [parseStored, orElse]
  simp only [scoreResume, hget, hparse]
  rw [cosine_of_gt _ [1] (by simp) (by rw [hlen]; simp), hsum]
  simp

theorem full_score_one (id name : String) :
    (scoreResume Real.sqrt (parseStored Real.sqrt zeroDigest)
      (getEmbedding Real.sqrt zeroDigest "engineer")
      (exampleRecord id name engineerText)).score = num 1 := by
  have hsum : sumSquares (getEmbedding Real.sqrt zeroDigest "engineer") = 1 :=
    mockEmbedding_sumSquares zeroDigest (some "engineer") 128 (by decide)
  have hget : (exampleRecord id name engineerText).get "embedding" = some engineerText := by
    simp [exampleRecord, JsObject.get]
  have hparse : (parseStored Real.sqrt zeroDigest (orElse (some engineerText) "[]")
      : Except String (JsValue ℝ))
      = .ok (.array (getEmbedding Real.sqrt zeroDigest "engineer")) := by
    simp [parseStored, orElse, engineerText]
  simp only [scoreResume, hget, hparse]
  exact cosine_self _ (by rw [hsum]; exact one_pos)

/-- C1 on the code: with three stored records whose embeddings are the empty
array, the one-component array `[1]` and the 128-component vector of the text
`engineer`, a search for `engineer` with `top_k = 5` scores them 0, `NaN` (the
loop of `cosine` reads past the end of `[1]`) and 1; every comparison with the
`NaN` score is `NaN`, the sort leaves the records in insertion order, and the
answer lists the scores 0, `NaN`, 1: it is not sorted non-increasing. -/
theorem search_order_example :
    (search Real.sqrt zeroDigest (parseStored Real.sqrt zeroDigest) mixedStore
        ⟨some "engineer", some 5⟩).results.map (fun r => (r.id, r.score))
        = [(some "1", num 0), (some "2", nan), (some "3", num 1)]
      ∧ ¬ NonIncreasing (search Real.sqrt zeroDigest (parseStored Real.sqrt zeroDigest)
          mixedStore ⟨some "engineer", some 5⟩).results := by
  have h₁ := empty_score_zero "1" "Ann" (getEmbedding Real.sqrt zeroDigest "engineer")
  have h₂ := short_score_nan "2" "Bob" "engineer"
  have h₃ := full_score_one "3" "Cid"
  have hres : (search Real.sqrt zeroDigest (parseStored Real.sqrt zeroDigest) mixedStore
      ⟨some "engineer", some 5⟩).results
      = [scoreResume Real.sqrt (parseStored Real.sqrt zeroDigest)
          (getEmbedding Real.sqrt zeroDigest "engineer") (exampleRecord "1" "Ann" "[]"),
         scoreResume Real.sqrt (parseStored Real.sqrt zeroDigest)
          (getEmbedding Real.sqrt zeroDigest "engineer") (exampleRecord "2" "Bob" "[1]"),
         scoreResume Real.sqrt (parseStored Real.sqrt zeroDigest)
          (getEmbedding Real.sqrt zeroDigest "engineer")
          (exampleRecord "3" "Cid" engineerText)] := by
    rw [search_nonempty_query Real.sqrt zeroDigest (parseStored Real.sqrt zeroDigest) mixedStore
      "engineer" (by decide) (some 5)]
    simp only [SearchResponse.results, rank, scoredResumes, getAllResumes, readDb, mixedStore,
      List.map_cons, List.map_nil]
    rw [jsSort_zero_nan_one _ _ _ h₁ h₂ h₃, slice_zero]
    have hk : relativeIndex [scoreResume Real.sqrt (parseStored Real.sqrt zeroDigest)
          (getEmbedding Real.sqrt zeroDigest "engineer") (exampleRecord "1" "Ann" "[]"),
         scoreResume Real.sqrt (parseStored Real.sqrt zeroDigest)
          (getEmbedding Real.sqrt zeroDigest "engineer") (exampleRecord "2" "Bob" "[1]"),
         scoreResume Real.sqrt (parseStored Real.sqrt zeroDigest)
          (getEmbedding Real.sqrt zeroDigest "engineer")
          (exampleRecord "3" "Cid" engineerText)].length (resultCount (some 5)) = 3 := by
      simp [resultCount, relativeIndex]
    rw [hk]
    rfl
  rw [hres]
  constructor
  · simp only [List.map_cons, List.map_nil, h₁, h₂, h₃]
    simp [scoreResume, exampleRecord, JsObject.get]
  · exact not_nonIncreasing_of_nan _ _ _ h₂

/-- When no stored record gets the score `NaN`, the answer of `rank` is sorted
non-increasing by score. -/
theorem rank_nonIncreasing_of_numeric (parse : String → Except String (JsValue ℝ))
    (queryVector : List ℝ) (allResumes : List JsObject) (k : Int)
    (h : ∀ resume ∈ allResumes,
      (scoreResume Real.sqrt parse queryVector resume).score.isNum = true) :
    NonIncreasing (rank Real.sqrt parse queryVector allResumes k) :=
  nonIncreasing_of_descending _ (rank_descending Real.sqrt parse queryVector allResumes k h)

theorem search_results_length {α : Type} [LinearOrderedField α] (sqrtFn : α → α)
    (sha256 : String → Digest) (parse : String → Except String (JsValue α)) (file : DbFile)
    (query : String) (hq : query ≠ "") (top_k : Option Int) :
    (search sqrtFn sha256 parse file ⟨some query, top_k⟩).results.length
      = relativeIndex (getAllResumes file).length (resultCount top_k) := by
  rw [search_nonempty_query sqrtFn sha256 parse file query hq top_k]
  simp only [SearchResponse.results, length_rank]

/-- C2, as stated, fails: against three stored records `top_k = 0` is replaced
by the default 5 and three results come back, and `top_k = -1` makes `slice`
drop the last result only, so two come back; both exceed `min(k, 3)`. -/
theorem search_count_example :
    ¬ (((search Real.sqrt zeroDigest parseOne threeStore
          ⟨some "engineer", some 0⟩).results.length : Int)
        ≤ min 0 ((getAllResumes threeStore).length : Int))
      ∧ ¬ (((search Real.sqrt zeroDigest parseOne threeStore
          ⟨some "engineer", some (-1)⟩).results.length : Int)
        ≤ min (-1) ((getAllResumes threeStore).length : Int)) := by
  rw [search_results_length Real.sqrt zeroDigest parseOne threeStore "engineer" (by decide),
    search_results_length Real.sqrt zeroDigest parseOne threeStore "engineer" (by decide)]
  simp [getAllResumes, readDb, threeStore, resultCount, relativeIndex]

/-- C2, amended: a search with a non-empty query is answered with a list that
never has more results than there are stored records; for a positive `top_k`
it has `min(top_k, n)` results (3 for `top_k = 5` against 3 records, none for
an empty store), for `top_k = 0` the default 5 applies and it has `min(5, n)`,
and for a negative `top_k` it has `n - |top_k|` results, or none when that is
negative. -/
theorem search_count (sha256 : String → Digest) (parse : String → Except String (JsValue ℝ))
    (file : DbFile) (query : String) (hq : query ≠ "") (top_k : Int) :
    (search Real.sqrt sha256 parse file ⟨some query, some top_k⟩).isOk = true
      ∧ (search Real.sqrt sha256 parse file ⟨some query, some top_k⟩).results.length
          ≤ (getAllResumes file).length
      ∧ (0 < top_k →
          (search Real.sqrt sha256 parse file ⟨some query, some top_k⟩).results.length
            = min top_k.toNat (getAllResumes file).length)
      ∧ (top_k = 0 →
          (search Real.sqrt sha256 parse file ⟨some query, some top_k⟩).results.length
            = min 5 (getAllResumes file).length)
      ∧ (top_k < 0 →
          (search Real.sqrt sha256 parse file ⟨some query, some top_k⟩).results.length
            = (getAllResumes file).length - top_k.natAbs) := by
  rw [search_results_length Real.sqrt sha256 parse file query hq]
  refine ⟨?_, relativeIndex_le _ _, ?_, ?_, ?_⟩
  · rw [search_nonempty_query Real.sqrt sha256 parse file query hq]
    rfl
  · intro hpos
    have h0 : top_k ≠ 0 := ne_of_gt hpos
    simp [resultCount, h0, relativeIndex, not_lt.2 (le_of_lt hpos)]
  · intro h0
    simp [resultCount, h0, relativeIndex]
  · intro hneg
    have h0 : top_k ≠ 0 := ne_of_lt hneg
    simp only [resultCount, h0, if_false, relativeIndex, hneg, if_true]
    omega

theorem search_count_witness :
    "engineer" ≠ ""
      ∧ (search Real.sqrt zeroDigest parseOne threeStore ⟨some "engineer", some 5⟩).isOk = true
      ∧ (search Real.sqrt zeroDigest parseOne threeStore
            ⟨some "engineer", some 5⟩).results.length ≤ (getAllResumes threeStore).length
      ∧ ((0 : Int) < 5 →
          (search Real.sqrt zeroDigest parseOne threeStore
            ⟨some "engineer", some 5⟩).results.length
            = min (5 : Int).toNat (getAllResumes threeStore).length)
      ∧ ((5 : Int) = 0 →
          (search Real.sqrt zeroDigest parseOne threeStore
            ⟨some "engineer", some 5⟩).results.length
            = min 5 (getAllResumes threeStore).length)
      ∧ ((5 : Int) < 0 →
          (search Real.sqrt zeroDigest parseOne threeStore
            ⟨some "engineer", some 5⟩).results.length
            = (getAllResumes threeStore).length - (5 : Int).natAbs) :=
  ⟨by decide, search_count zeroDigest parseOne threeStore "engineer" (by decide) 5⟩

/-- C4: a stored record whose embedding cannot be parsed into a numeric vector
(`JSON.parse` throws on its text, or the text is JSON that is not an array, or
the embedding is missing and the default text `[]` is read as the empty array)
still gets one scored result, with score exactly 0; the scoring step is a
total function and yields as many scored results as there are stored records. -/
theorem unparsable_scores_zero (parse : String → Except String (JsValue ℝ))
    (queryVector : List ℝ) (resume : JsObject) (allResumes : List JsObject)
    (h : (∃ e, parse (orElse (resume.get "embedding") "[]") = .error e)
      ∨ parse (orElse (resume.get "embedding") "[]") = .ok .notArray
      ∨ (resume.get "embedding" = none ∧ parse "[]" = .ok (.array []))) :
    (scoreResume Real.sqrt parse queryVector resume).score = num 0
      ∧ (resume ∈ allResumes →
          scoreResume Real.sqrt parse queryVector resume
            ∈ scoredResumes Real.sqrt parse queryVector allResumes)
      ∧ (scoredResumes Real.sqrt parse queryVector allResumes).length = allResumes.length := by
  refine ⟨?_, ?_, ?_⟩
  · rcases h with ⟨e, he⟩ | he | ⟨hnone, he⟩
    · simp only [scoreResume, he]
      exact cosine_of_empty_right _
    · simp only [scoreResume, he]
      simp [cosine]
    · simp only [scoreResume, hnone, orElse, he]
      exact cosine_of_empty_right _
  · intro hmem
    exact List.mem_map.2 ⟨resume, hmem, rfl⟩
  · simp [scoredResumes]

theorem unparsable_scores_zero_witness :
    ((∃ e, (parseOne : String → Except String (JsValue ℝ))
          (orElse ((exampleRecord "1" "Ann" "not json").get "embedding") "[]") = .error e)
        ∨ (parseOne : String → Except String (JsValue ℝ))
          (orElse ((exampleRecord "1" "Ann" "not json").get "embedding") "[]") = .ok .notArray
        ∨ ((exampleRecord "1" "Ann" "not json").get "embedding" = none
          ∧ (parseOne : String → Except String (JsValue ℝ)) "[]" = .ok (.array [])))
      ∧ (scoreResume Real.sqrt parseOne [1, 0] (exampleRecord "1" "Ann" "not json")).score = num 0
      ∧ (exampleRecord "1" "Ann" "not json" ∈ [exampleRecord "1" "Ann" "not json"] →
          scoreResume Real.sqrt parseOne [1, 0] (exampleRecord "1" "Ann" "not json")
            ∈ scoredResumes Real.sqrt parseOne [1, 0] [exampleRecord "1" "Ann" "not json"])
      ∧ (scoredResumes Real.sqrt parseOne [1, 0] [exampleRecord "1" "Ann" "not json"]).length
          = [exampleRecord "1" "Ann" "not json"].length := by
  have h : (∃ e, (parseOne : String → Except String (JsValue ℝ))
        (orElse ((exampleRecord "1" "Ann" "not json").get "embedding") "[]") = .error e)
      ∨ (parseOne : String → Except String (JsValue ℝ))
        (orElse ((exampleRecord "1" "Ann" "not json").get "embedding") "[]") = .ok .notArray
      ∨ ((exampleRecord "1" "Ann" "not json").get "embedding" = none
        ∧ (parseOne : String → Except String (JsValue ℝ)) "[]" = .ok (.array [])) := by
    left
    exact ⟨"Unexpected token", by simp [exampleRecord, JsObject.get, orElse, parseOne]⟩
  exact ⟨h, unparsable_scores_zero parseOne [1, 0] (exampleRecord "1" "Ann" "not json")
    [exampleRecord "1" "Ann" "not json"] h⟩

/-- C5 on the code: for a record as the upload handler stores it, the scored
result carries the id, the name and the email of the record, but its
`fileName` is read from the property `file_name`, which the record does not
have: it is `undefined`, while the record holds the original file name under
`fileName`. -/
theorem scored_fileName_undefined (parse : String → Except String (JsValue ℝ))
    (queryVector : List ℝ) (id : Nat) (u : Upload) :
    (scoreResume Real.sqrt parse queryVector (storedRecord id u)).id
        = (storedRecord id u).get "id"
      ∧ (scoreResume Real.sqrt parse queryVector (storedRecord id u)).name
        = (storedRecord id u).get "name"
      ∧ (scoreResume Real.sqrt parse queryVector (storedRecord id u)).email
        = (storedRecord id u).get "email"
      ∧ (storedRecord id u).get "fileName" = some u.originalname
      ∧ (scoreResume Real.sqrt parse queryVector (storedRecord id u)).fileName = none
      ∧ (scoreResume Real.sqrt parse queryVector (storedRecord id u)).fileName
        ≠ (storedRecord id u).get "fileName" := by
  have hfile : (storedRecord id u).get "fileName" = some u.originalname := by
    simp [storedRecord, newResume, resumeData, JsObject.spread, JsObject.set, JsObject.get]
  have hnone : (scoreResume Real.sqrt parse queryVector (storedRecord id u)).fileName = none := by
    simp [scoreResume, storedRecord, newResume, resumeData, JsObject.spread, JsObject.set,
      JsObject.get]
  refine ⟨rfl, rfl, rfl, hfile, hnone, ?_⟩
  rw [hnone, hfile]
  exact Option.noConfusion

/-! ## Properties of the store -/

theorem init_none : readDb (init none) = { resumes := [], lastId := 0 } := rfl

/-- C10: starting from the empty store, after any sequence of `insertResume`
calls on records of the upload shape the `insertId`s returned are the decimal
strings of `1, 2, ..., n` in this order, they are the ids of the stored
records, they are pairwise distinct and strictly increasing as numbers,
`lastId` and the number of records are `n`, and the records of a shorter run
are a prefix of the records of every longer run. -/
theorem insert_ids (us : List Upload) :
    (insertUploads (init none) us).2 = (List.range' 1 us.length).map (fun i => some (toString i))
      ∧ (readDb (insertUploads (init none) us).1).resumes.map (fun r => r.get "id")
        = (List.range' 1 us.length).map (fun i => some (toString i))
      ∧ ((readDb (insertUploads (init none) us).1).resumes.map (fun r => r.get "id")).Nodup
      ∧ ((readDb (insertUploads (init none) us).1).resumes.map
          (fun r => decimalValue ((r.get "id").getD ""))).Pairwise (fun i j => i < j)
      ∧ (readDb (insertUploads (init none) us).1).lastId = us.length
      ∧ (readDb (insertUploads (init none) us).1).resumes.length = us.length
      ∧ ∀ vs : List Upload, (readDb (insertUploads (init none) us).1).resumes
          <+: (readDb (insertUploads (init none) (us ++ vs)).1).resumes := by
  have hids : (readDb (insertUploads (init none) us).1).resumes.map (fun r => r.get "id")
      = (List.range' 1 us.length).map (fun i => some (toString i)) := by
    rw [insertUploads_resumes, init_none]
    simp only [List.nil_append, List.map_map, Nat.zero_add]
    rw [← List.enumFrom_map_fst 1 us, List.map_map]
    apply List.map_congr_left
    intro p _
    exact storedRecord_id p.1 p.2
  refine ⟨?_, hids, ?_, ?_, ?_, ?_, ?_⟩
  · rw [insertUploads_ids, init_none]
    simp only [Nat.zero_add]
    rw [← List.enumFrom_map_fst 1 us, List.map_map]
    rfl
  · rw [hids]
    apply List.Nodup.map _ (List.nodup_range' 1 us.length)
    intro i j hij
    exact toString_injective (Option.some.inj hij)
  · have hval : (readDb (insertUploads (init none) us).1).resumes.map
        (fun r => decimalValue ((r.get "id").getD ""))
        = ((readDb (insertUploads (init none) us).1).resumes.map (fun r => r.get "id")).map
          (fun o => decimalValue (o.getD "")) := by
      rw [List.map_map]
      rfl
    rw [hval, hids, List.map_map]
    have hid : (List.range' 1 us.length).map
        ((fun o : Option String => decimalValue (o.getD "")) ∘ fun i => some (toString i))
        = List.range' 1 us.length := by
      conv_rhs => rw [← List.map_id (List.range' 1 us.length)]
      apply List.map_congr_left
      intro i _
      simp [decimalValue_toString]
    rw [hid]
    exact List.pairwise_lt_range' 1 us.length
  · rw [insertUploads_lastId, init_none]
    simp
  · rw [insertUploads_resumes, init_none]
    simp
  · intro vs
    rw [insertUploads_resumes, insertUploads_resumes, List.enumFrom_append, List.map_append,
      ← List.append_assoc]
    exact List.prefix_append _ _

end ResumeAnalyzer
